import Mathlib

/-
  Verification development for the `dm-pii-entity-redactor` repository
  (single source file `src/main.py`).

  The core of the program is `PIIEntityRedactor.redact_text`, which, for each
  `(entity_type, pattern)` entry of a patterns dict (in insertion order),
  performs `re.sub(pattern, self._get_replacement(entity_type), redacted_text)`.
  We shallowly embed:
    * a Python-`re`-style regular expression abstract syntax (`Regex`),
      a backtracking matcher (`mts` / `mfirst`) that follows Python's
      preference order (left alternative first, greedy repetition), and a
      pattern compiler (`compile`) from pattern strings that can fail the
      way `re.compile` fails on malformed syntax;
    * `re.sub`'s replacement-template handling (`parseTemplate` / `expand`):
      a replacement string is a template (backslash escapes, group
      references), parsed eagerly before scanning, exactly as CPython does;
    * the substitution scan (`scan` / `substL`): leftmost non-overlapping
      matching with Python >= 3.7 empty-match handling (an empty match is
      substituted and the scan then advances one character);
    * the redactor loop (`redactGo` / `redact_text`), the Faker-backed
      replacement dispatch (`get_replacement`), pattern selection at
      construction (`initPatterns`, mirroring `patterns or _default_patterns()`),
      and `load_patterns` (file lookup, JSON decoding, top-level dict check).

  Modelling notes (boundaries of the embedding):
    * The Faker generator is modelled as a stream `Nat -> Except Unit String`
      giving the outcome of the k-th generator invocation; a counter threaded
      through `redactGo` records how often the generator is invoked.
    * Python dicts are modelled as association lists in insertion order
      (dict iteration order is insertion order).
    * The regex dialect covers the constructs the program's default patterns
      use (literals, escapes `\d \s \w \D \S \W`, character classes with
      ranges, `.`, alternation, grouping `( )` and `(?: )`, `* + ?`,
      counted repetition); anchors, lookaround and backreferences are mapped
      to a distinct `CErr.unsupported` compile outcome.
    * The file system and JSON decoding behind `load_patterns` are modelled
      as a function from path to an optional decode outcome.
-/

/-- Character-class items of the regex dialect: a literal member, an
inclusive range, and the predefined classes `\d`, `\s`, `\w`. -/
inductive ClsItem where
  | single (c : Char)
  | range (lo hi : Char)
  | digit
  | space
  | word
deriving DecidableEq, Repr

/-- Regex abstract syntax after compilation.  `group idx r` is a capturing
group numbered `idx` (Python numbers groups by opening-paren order, from 1);
`cls pos items` is a character class, negated when `pos = false`. -/
inductive Regex where
  | eps
  | chr (c : Char)
  | any
  | cls (pos : Bool) (items : List ClsItem)
  | alt (r1 r2 : Regex)
  | cat (r1 r2 : Regex)
  | star (r : Regex)
  | group (idx : Nat) (r : Regex)
deriving DecidableEq, Repr

/-- Does character `c` belong to a single class item? -/
def itemMatch (c : Char) : ClsItem → Bool
  | .single a => c = a
  | .range lo hi => lo ≤ c ∧ c ≤ hi
  | .digit => c.isDigit
  | .space => c = ' ' ∨ c = '\t' ∨ c = '\n' ∨ c = '\x0b' ∨ c = '\x0c' ∨ c = '\r'
  | .word => c.isAlphanum ∨ c = '_'

/-- Class membership: a positive class matches iff some item matches, a
negated class iff no item matches. -/
def clsMatch (pos : Bool) (items : List ClsItem) (c : Char) : Bool :=
  items.any (itemMatch c) = pos

/-- Group captures recorded during a match: pairs of group index and the
captured characters, most recent capture first (Python keeps the last
capture of a repeated group). -/
abbrev Caps := List (Nat × List Char)

/-- All ways for an iterated body to match a prefix of `s` (Python's greedy
preference: continuing the repetition is tried before stopping), given the
body matcher `f`.  Each iteration must consume at least one character, which
is how Python's engine breaks repetition of an empty match.  `fuel` bounds
the recursion; callers pass `s.length + 1`, which is always sufficient since
every iteration strictly shrinks the remaining input. -/
def mtsStar (f : List Char → List (List Char × Caps)) : Nat → List Char → List (List Char × Caps)
  | 0, s => [(s, [])]
  | fuel + 1, s =>
      ((f s).filter (fun p => p.1.length < s.length)).flatMap
        (fun p => (mtsStar f fuel p.1).map (fun q => (q.1, q.2 ++ p.2))) ++ [(s, [])]

/-- Backtracking matcher: all ways `r` can match a prefix of `s`, in
Python's preference order (head of the list is the match the engine picks).
Each result is the remaining suffix together with the group captures. -/
def mts : Regex → List Char → List (List Char × Caps)
  | .eps, s => [(s, [])]
  | .chr c, s =>
      match s with
      | [] => []
      | a :: t => if a = c then [(t, [])] else []
  | .any, s =>
      match s with
      | [] => []
      | a :: t => if a = '\n' then [] else [(t, [])]
  | .cls pos items, s =>
      match s with
      | [] => []
      | a :: t => if clsMatch pos items a then [(t, [])] else []
  | .alt r1 r2, s => mts r1 s ++ mts r2 s
  | .cat r1 r2, s =>
      (mts r1 s).flatMap (fun p => (mts r2 p.1).map (fun q => (q.1, q.2 ++ p.2)))
  | .star r, s => mtsStar (mts r) (s.length + 1) s
  | .group i r, s =>
      (mts r s).map (fun p => (p.1, (i, s.take (s.length - p.1.length)) :: p.2))

/-- The match Python's engine selects for `r` at the start of `s`, if any:
the number of characters consumed and the group captures. -/
def mfirst (r : Regex) (s : List Char) : Option (Nat × Caps) :=
  match mts r s with
  | [] => none
  | p :: _ => some (s.length - p.1.length, p.2)

/-- Pattern-compilation failures, mirroring `re.error` causes. -/
inductive CErr where
  | badEscape
  | unterminatedClass
  | badRange
  | unbalancedParen
  | missingParen
  | nothingToRepeat
  | badRepeat
  | unsupported
deriving DecidableEq, Repr

/-- Consume a run of decimal digits, accumulating their value. -/
def takeDigits : List Char → Option Nat → Option Nat × List Char
  | [], acc => (acc, [])
  | c :: rest, acc =>
      if c.isDigit then takeDigits rest (some ((acc.getD 0) * 10 + (c.toNat - 48)))
      else (acc, c :: rest)

/-- `n` concatenated copies of `r` (for counted repetition `{n}`). -/
def repN : Nat → Regex → Regex
  | 0, _ => .eps
  | n + 1, r => .cat r (repN n r)

/-- Up to `n` further copies of `r`, greedily (for `{m,n}`). -/
def optUpto : Nat → Regex → Regex
  | 0, _ => .eps
  | n + 1, r => .alt (.cat r (optUpto n r)) .eps

/-- Concatenate a list of regexes in order. -/
def combineSeq : List Regex → Regex
  | [] => .eps
  | [r] => r
  | r :: rs => .cat r (combineSeq rs)

/-- Combine alternatives in order (left alternative preferred). -/
def combineAlts : List Regex → Regex
  | [] => .eps
  | [r] => r
  | r :: rs => .alt r (combineAlts rs)

/-- Interpretation of a backslash escape inside a character class. -/
def classEscape (c : Char) : Except CErr ClsItem :=
  if c = 'd' then .ok .digit
  else if c = 's' then .ok .space
  else if c = 'w' then .ok .word
  else if c = 'n' then .ok (.single '\n')
  else if c = 't' then .ok (.single '\t')
  else if c = 'r' then .ok (.single '\r')
  else if c.isAlpha ∨ c.isDigit then .error .badEscape
  else .ok (.single c)

/-- Parse the items of a character class, after `[` (and any leading `^` /
literal `]`) has been consumed; returns the items and the input remaining
after the closing `]`. -/
def parseClassItems : List Char → Except CErr (List ClsItem × List Char)
  | [] => .error .unterminatedClass
  | ']' :: rest => .ok ([], rest)
  | '\\' :: rest =>
      match rest with
      | [] => .error .badEscape
      | c :: rest2 =>
          match classEscape c with
          | .error e => .error e
          | .ok item =>
              match parseClassItems rest2 with
              | .error e => .error e
              | .ok p => .ok (item :: p.1, p.2)
  | a :: '-' :: rest =>
      match rest with
      | [] => .error .unterminatedClass
      | ']' :: rest2 => .ok ([.single a, .single '-'], rest2)
      | b :: rest2 =>
          if b = '\\' then .error .unsupported
          else if b < a then .error .badRange
          else
            match parseClassItems rest2 with
            | .error e => .error e
            | .ok p => .ok (.range a b :: p.1, p.2)
  | a :: rest =>
      match parseClassItems rest with
      | .error e => .error e
      | .ok p => .ok (.single a :: p.1, p.2)

/-- Parse a whole character class, after the opening `[`: handles the
negation mark and Python's rule that a `]` directly after `[` (or `[^`) is a
literal member.  Returns positivity, items, and the remaining input. -/
def parseCls (input : List Char) : Except CErr (Bool × List ClsItem × List Char) :=
  match input with
  | '^' :: ']' :: rest =>
      match parseClassItems rest with
      | .error e => .error e
      | .ok p => .ok (false, .single ']' :: p.1, p.2)
  | '^' :: rest =>
      match parseClassItems rest with
      | .error e => .error e
      | .ok p => .ok (false, p.1, p.2)
  | ']' :: rest =>
      match parseClassItems rest with
      | .error e => .error e
      | .ok p => .ok (true, .single ']' :: p.1, p.2)
  | rest =>
      match parseClassItems rest with
      | .error e => .error e
      | .ok p => .ok (true, p.1, p.2)

/-- Interpretation of a backslash escape outside a character class.
Numeric escapes (backreferences) and other extensions are out of the
modelled dialect. -/
def patEscape (c : Char) : Except CErr Regex :=
  if c = 'd' then .ok (.cls true [.digit])
  else if c = 's' then .ok (.cls true [.space])
  else if c = 'w' then .ok (.cls true [.word])
  else if c = 'D' then .ok (.cls false [.digit])
  else if c = 'S' then .ok (.cls false [.space])
  else if c = 'W' then .ok (.cls false [.word])
  else if c = 'n' then .ok (.chr '\n')
  else if c = 't' then .ok (.chr '\t')
  else if c = 'r' then .ok (.chr '\r')
  else if c.isDigit then .error .unsupported
  else if c.isAlpha then .error .badEscape
  else .ok (.chr c)

/-- Apply a postfix repetition operator to the most recent atom of the
current sequence (`seq` is kept in reverse order); with no atom Python
raises "nothing to repeat". -/
def applyPost (op : Regex → Regex) : List Regex → Except CErr (List Regex)
  | [] => .error .nothingToRepeat
  | r :: rs => .ok (op r :: rs)

/-- Close the current alternation level: `seq` (reversed) is the current
branch, `alts` (reversed) the earlier branches. -/
def finishAlts (seq : List Regex) (alts : List Regex) : Regex :=
  combineAlts ((combineSeq seq.reverse :: alts).reverse)

/-- One stack frame per open group: whether it captures (and its index),
plus the saved sequence and alternatives of the enclosing level. -/
abbrev PStack := List (Option Nat × List Regex × List Regex)

/-- The pattern compiler's main loop, one input character class of work per
step.  `g` is the number of capturing groups opened so far.  `fuel` bounds
the recursion; every step consumes at least one input character, so
`input.length + 1` is always sufficient. -/
def parseMain : Nat → Nat → List Regex → List Regex → PStack → List Char → Except CErr (Regex × Nat)
  | 0, _, _, _, _, _ => .error .unsupported
  | _ + 1, g, seq, alts, stack, [] =>
      match stack with
      | [] => .ok (finishAlts seq alts, g)
      | _ :: _ => .error .missingParen
  | fuel + 1, g, seq, alts, stack, '|' :: rest =>
      parseMain fuel g [] (combineSeq seq.reverse :: alts) stack rest
  | fuel + 1, g, seq, alts, stack, '(' :: '?' :: ':' :: rest =>
      parseMain fuel g [] [] ((none, seq, alts) :: stack) rest
  | _ + 1, _, _, _, _, '(' :: '?' :: _ => .error .unsupported
  | fuel + 1, g, seq, alts, stack, '(' :: rest =>
      parseMain fuel (g + 1) [] [] ((some (g + 1), seq, alts) :: stack) rest
  | fuel + 1, g, seq, alts, stack, ')' :: rest =>
      match stack with
      | [] => .error .unbalancedParen
      | (gk, seq0, alts0) :: stack' =>
          match gk with
          | some i => parseMain fuel g (Regex.group i (finishAlts seq alts) :: seq0) alts0 stack' rest
          | none => parseMain fuel g (finishAlts seq alts :: seq0) alts0 stack' rest
  | fuel + 1, g, seq, alts, stack, '*' :: rest =>
      match applyPost .star seq with
      | .error e => .error e
      | .ok seq' => parseMain fuel g seq' alts stack rest
  | fuel + 1, g, seq, alts, stack, '+' :: rest =>
      match applyPost (fun r => .cat r (.star r)) seq with
      | .error e => .error e
      | .ok seq' => parseMain fuel g seq' alts stack rest
  | fuel + 1, g, seq, alts, stack, '?' :: rest =>
      match applyPost (fun r => .alt r .eps) seq with
      | .error e => .error e
      | .ok seq' => parseMain fuel g seq' alts stack rest
  | fuel + 1, g, seq, alts, stack, '{' :: rest =>
      match takeDigits rest none with
      | (some m, '}' :: rest3) =>
          match applyPost (repN m) seq with
          | .error e => .error e
          | .ok seq' => parseMain fuel g seq' alts stack rest3
      | (mo, ',' :: rest3) =>
          match takeDigits rest3 none with
          | (no, '}' :: rest5) =>
              match no with
              | none =>
                  match applyPost (fun r => .cat (repN (mo.getD 0) r) (.star r)) seq with
                  | .error e => .error e
                  | .ok seq' => parseMain fuel g seq' alts stack rest5
              | some n =>
                  if n < mo.getD 0 then .error .badRepeat
                  else
                    match applyPost (fun r => .cat (repN (mo.getD 0) r) (optUpto (n - mo.getD 0) r)) seq with
                    | .error e => .error e
                    | .ok seq' => parseMain fuel g seq' alts stack rest5
          | _ => parseMain fuel g (Regex.chr '{' :: seq) alts stack rest
      | _ => parseMain fuel g (Regex.chr '{' :: seq) alts stack rest
  | fuel + 1, g, seq, alts, stack, '.' :: rest =>
      parseMain fuel g (Regex.any :: seq) alts stack rest
  | fuel + 1, g, seq, alts, stack, '[' :: rest =>
      match parseCls rest with
      | .error e => .error e
      | .ok (pos, items, rest2) => parseMain fuel g (Regex.cls pos items :: seq) alts stack rest2
  | fuel + 1, g, seq, alts, stack, '\\' :: rest =>
      match rest with
      | [] => .error .badEscape
      | c :: rest2 =>
          match patEscape c with
          | .error e => .error e
          | .ok r => parseMain fuel g (r :: seq) alts stack rest2
  | _ + 1, _, _, _, _, '^' :: _ => .error .unsupported
  | _ + 1, _, _, _, _, '$' :: _ => .error .unsupported
  | fuel + 1, g, seq, alts, stack, c :: rest =>
      parseMain fuel g (Regex.chr c :: seq) alts stack rest

/-- `re.compile` on a pattern string: the compiled regex and the number of
capturing groups, or a compile error. -/
def compile (pat : String) : Except CErr (Regex × Nat) :=
  parseMain (pat.data.length + 1) 0 [] [] [] pat.data

/-- Replacement-template items: a literal character or a group reference
(`\1` .. `\9`). -/
inductive TItem where
  | lit (c : Char)
  | grp (n : Nat)
deriving DecidableEq, Repr

abbrev Template := List TItem

/-- Failures of replacement-template handling, mirroring the `re.error`
cases raised by CPython's template parser and expander. -/
inductive TErr where
  | badEscape
  | invalidGroupRef
  | unmatchedGroup
  | unsupported
deriving DecidableEq, Repr

/-- Parse a replacement string into a template, as CPython's
`re` template parser does (eagerly, before any match is attempted):
`\\` is a literal backslash, `\` + digit a group reference checked against
the pattern's group count, `\n`/`\t`/`\r` character escapes, `\` + other
letter a "bad escape" error, a trailing `\` a "bad escape" error, and `\` +
punctuation keeps both characters.  `\g<...>` and multi-digit references
are outside the modelled dialect. -/
def parseTemplate (ngroups : Nat) : List Char → Except TErr Template
  | [] => .ok []
  | c0 :: rest0 =>
      if c0 = '\\' then
      match rest0 with
      | [] => .error .badEscape
      | c :: rest2 =>
          if c = '\\' then
            match parseTemplate ngroups rest2 with
            | .error e => .error e
            | .ok tpl => .ok (.lit '\\' :: tpl)
          else if c = 'n' then
            match parseTemplate ngroups rest2 with
            | .error e => .error e
            | .ok tpl => .ok (.lit '\n' :: tpl)
          else if c = 't' then
            match parseTemplate ngroups rest2 with
            | .error e => .error e
            | .ok tpl => .ok (.lit '\t' :: tpl)
          else if c = 'r' then
            match parseTemplate ngroups rest2 with
            | .error e => .error e
            | .ok tpl => .ok (.lit '\r' :: tpl)
          else if c = 'g' then .error .unsupported
          else if c = '0' then .error .unsupported
          else if c.isDigit then
            if c.toNat - 48 ≤ ngroups then
              match parseTemplate ngroups rest2 with
              | .error e => .error e
              | .ok tpl => .ok (.grp (c.toNat - 48) :: tpl)
            else .error .invalidGroupRef
          else if c.isAlpha then .error .badEscape
          else
            match parseTemplate ngroups rest2 with
            | .error e => .error e
            | .ok tpl => .ok (.lit '\\' :: .lit c :: tpl)
      else
      match parseTemplate ngroups rest0 with
      | .error e => .error e
      | .ok tpl => .ok (.lit c0 :: tpl)

/-- Expand a parsed template against the captures of one match.  A
reference to a group that did not take part in the match is an
"unmatched group" error, as in CPython. -/
def expand (caps : Caps) : Template → Except TErr (List Char)
  | [] => .ok []
  | .lit c :: rest =>
      match expand caps rest with
      | .error e => .error e
      | .ok out => .ok (c :: out)
  | .grp n :: rest =>
      match caps.find? (fun p => p.1 = n) with
      | none => .error .unmatchedGroup
      | some p =>
          match expand caps rest with
          | .error e => .error e
          | .ok out => .ok (p.2 ++ out)

/-- The substitution scan of `re.sub`: walk the input left to right; at each
position substitute the match the engine picks, or copy one character.  An
empty match is substituted and the scan then advances one character
(Python >= 3.7 semantics).  `fuel` bounds the recursion; each step strictly
shrinks the input, so `l.length + 1` is always sufficient. -/
def scan (r : Regex) (tpl : Template) : Nat → List Char → Except TErr (List Char)
  | 0, l => .ok l
  | fuel + 1, l =>
      match mfirst r l with
      | none =>
          match l with
          | [] => .ok []
          | c :: t =>
              match scan r tpl fuel t with
              | .error e => .error e
              | .ok out => .ok (c :: out)
      | some (len, caps) =>
          match expand caps tpl with
          | .error e => .error e
          | .ok rep =>
              match len with
              | 0 =>
                  match l with
                  | [] => .ok rep
                  | c :: t =>
                      match scan r tpl fuel t with
                      | .error e => .error e
                      | .ok out => .ok (rep ++ c :: out)
              | len' + 1 =>
                  match scan r tpl fuel (l.drop (len' + 1)) with
                  | .error e => .error e
                  | .ok out => .ok (rep ++ out)

/-- `re.sub` on character lists, for an already compiled pattern: parse the
replacement template eagerly (CPython does this before scanning), then run
the substitution scan. -/
def substL (r : Regex) (ngroups : Nat) (repl : List Char) (l : List Char) : Except TErr (List Char) :=
  match parseTemplate ngroups repl with
  | .error e => .error e
  | .ok tpl => scan r tpl (l.length + 1) l

/-- The Faker generator, modelled as the stream of outcomes of its
successive invocations: `fk k` is what the k-th call to a `faker` method
returns (`.error` models the call raising). -/
abbrev FakerGen := Nat → Except Unit String

/-- Is the label one of the three entity types `_get_replacement`
dispatches to Faker for? -/
def knownCat (ty : String) : Bool :=
  ty = "name" ∨ ty = "address" ∨ ty = "phone_number"

/-- `PIIEntityRedactor._get_replacement`: dispatch on the entity type,
calling Faker for `name` / `address` / `phone_number` (one invocation,
advancing the stream counter `k`), `""` for any other label; a raising
Faker call is caught and becomes the literal `"[REDACTED]"`. -/
def get_replacement (fk : FakerGen) (k : Nat) (ty : String) : String × Nat :=
  if ty = "name" then
    match fk k with
    | .ok v => (v, k + 1)
    | .error _ => ("[REDACTED]", k + 1)
  else if ty = "address" then
    match fk k with
    | .ok v => (v, k + 1)
    | .error _ => ("[REDACTED]", k + 1)
  else if ty = "phone_number" then
    match fk k with
    | .ok v => (v, k + 1)
    | .error _ => ("[REDACTED]", k + 1)
  else ("", k)

/-- Errors a `redact_text` call can raise: a pattern compile error or a
replacement-template error (both are `re.error` in Python; `redact_text`
logs and re-raises them). -/
inductive RedactErr where
  | pcompile (e : CErr)
  | template (e : TErr)
deriving DecidableEq, Repr

/-- The loop body of `PIIEntityRedactor.redact_text`: one
`re.sub(pattern, self._get_replacement(entity_type), redacted_text)` per
patterns entry, in insertion order, updating the working text.  Python
evaluates the `_get_replacement` argument (one Faker invocation for known
labels) before `re.sub` compiles the pattern.  The `Nat` component is the
Faker invocation counter. -/
def redactGo (fk : FakerGen) : List (String × String) → String → Nat → Except RedactErr (String × Nat)
  | [], t, k => .ok (t, k)
  | (ty, pat) :: rest, t, k =>
      match get_replacement fk k ty with
      | (repl, k2) =>
          match compile pat with
          | .error e => .error (.pcompile e)
          | .ok rg =>
              match substL rg.1 rg.2 repl.data t.data with
              | .error e => .error (.template e)
              | .ok t2 => redactGo fk rest (String.mk t2) k2

/-- `PIIEntityRedactor.redact_text`: run all category passes starting from
the input text and a fresh generator counter; errors propagate. -/
def redact_text (fk : FakerGen) (patterns : List (String × String)) (text : String) : Except RedactErr String :=
  match redactGo fk patterns text 0 with
  | .error e => .error e
  | .ok p => .ok p.1

/-- `PIIEntityRedactor._default_patterns`. -/
def default_patterns : List (String × String) :=
  [("name", "([A-Z][a-z]+) ([A-Z][a-z]+)"),
   ("address", "\\d+ [A-Za-z]+ St(?:reet)?"),
   ("phone_number", "\\(?\\d{3}\\)?[-.\\s]?\\d{3}[-.\\s]?\\d{4}")]

/-- Pattern selection in `PIIEntityRedactor.__init__`:
`self.patterns = patterns or self._default_patterns()`.  `none` models
passing `None`; a supplied empty dict is falsy in Python, so it also
selects the defaults. -/
def initPatterns (patterns : Option (List (String × String))) : List (String × String) :=
  match patterns with
  | none => default_patterns
  | some ps => if ps = [] then default_patterns else ps

/-- Number of patterns entries whose label dispatches to Faker; each such
pass invokes the generator exactly once. -/
def countKnown (patterns : List (String × String)) : Nat :=
  (patterns.filter (fun e => knownCat e.1)).length

/-- A string with no backslash: its use as a replacement template inserts
it verbatim. -/
def bslashFree (s : String) : Bool :=
  s.data.all (fun c => c ≠ '\\')

/-- JSON values, the shape `json.load` can produce. -/
inductive JValue where
  | jnull
  | jbool (b : Bool)
  | jnum (n : Int)
  | jstr (s : String)
  | jarr (xs : List JValue)
  | jobj (fields : List (String × JValue))

/-- The error classes `load_patterns` raises, under the names the spec
gives them: `configNotFound` is Python's `FileNotFoundError`,
`configParse` is `json.JSONDecodeError`, `configFormat` is the `TypeError`
raised by the dict check. -/
inductive LoadError where
  | configNotFound
  | configParse
  | configFormat
deriving DecidableEq, Repr

/-- A configuration source: for each path, `none` when the file cannot be
located, `some (.error _)` when its contents are not valid JSON, and
`some (.ok v)` for the decoded JSON value. -/
abbrev ConfigSource := String → Option (Except Unit JValue)

/-- `load_patterns`: open the file (`FileNotFoundError` if absent), decode
JSON (`JSONDecodeError` if malformed), and require the decoded value to be
a dict (`TypeError` otherwise); any dict is returned as-is. -/
def load_patterns (fs : ConfigSource) (file_path : String) : Except LoadError JValue :=
  match fs file_path with
  | none => .error .configNotFound
  | some (.error _) => .error .configParse
  | some (.ok v) =>
      match v with
      | .jobj fields => .ok (.jobj fields)
      | _ => .error .configFormat

/-- Does a JSON value have string values under every top-level key of an
object (the "mapping of string to string" shape the spec requires)? -/
def allStringValues : JValue → Bool
  | .jobj fields => fields.all (fun f => match f.2 with | .jstr _ => true | _ => false)
  | _ => false

/-- A regex matches nowhere in `l`: the engine finds no match starting at
any position (i.e. no substring of `l` matches). -/
def noMatchTails (r : Regex) (l : List Char) : Bool :=
  l.tails.all (fun t => (mfirst r t).isNone)

/-- Prepend one character of skipped text to a chunk decomposition: it
joins the gap before the first match, or the trailing gap if there is no
match. -/
def addGap (c : Char) :
    List (List Char × List Char × Caps) × List Char →
    List (List Char × List Char × Caps) × List Char
  | ([], tl) => ([], c :: tl)
  | ((g, m, caps) :: cs, tl) => ((c :: g, m, caps) :: cs, tl)

/-- Decompose the input the way the substitution scan walks it: a list of
chunks (unmatched gap, matched span, captures of that match) followed by
the unmatched tail.  Written independently of `scan` so the two can be
compared; it uses the same fuel discipline. -/
def findChunks (r : Regex) : Nat → List Char → List (List Char × List Char × Caps) × List Char
  | 0, l => ([], l)
  | fuel + 1, l =>
      match mfirst r l with
      | none =>
          match l with
          | [] => ([], [])
          | c :: t => addGap c (findChunks r fuel t)
      | some (len, caps) =>
          match len with
          | 0 =>
              match l with
              | [] => ([([], [], caps)], [])
              | c :: t =>
                  match addGap c (findChunks r fuel t) with
                  | (cs, tl) => (([], [], caps) :: cs, tl)
          | len' + 1 =>
              match findChunks r fuel (l.drop (len' + 1)) with
              | (cs, tl) => (([], l.take (len' + 1), caps) :: cs, tl)

/-- Reassemble a chunk decomposition with the matched spans kept verbatim. -/
def chunksText : List (List Char × List Char × Caps) → List Char → List Char
  | [], tl => tl
  | (g, m, _) :: cs, tl => g ++ m ++ chunksText cs tl

/-- Reassemble a chunk decomposition with each matched span replaced by the
template expanded against that match's captures; gaps and tail are kept
verbatim. -/
def renderChunks (tpl : Template) : List (List Char × List Char × Caps) → List Char → Except TErr (List Char)
  | [], tl => .ok tl
  | (g, _, caps) :: cs, tl =>
      match expand caps tpl with
      | .error e => .error e
      | .ok rep =>
          match renderChunks tpl cs tl with
          | .error e => .error e
          | .ok out => .ok (g ++ rep ++ out)

theorem String.mk_data (s : String) : String.mk s.data = s := by
  cases s
  rfl

theorem parseTemplate_lit (ngroups : Nat) :
    ∀ l : List Char, l.all (fun c => c ≠ '\\') = true →
      parseTemplate ngroups l = .ok (l.map TItem.lit) := by
  intro l
  induction l with
  | nil => intro h; rfl
  | cons c rest ih =>
      intro h
      simp only [List.all_cons, Bool.and_eq_true, decide_eq_true_eq] at h
      have hrest := ih h.2
      have hc : c ≠ '\\' := h.1
      rw [parseTemplate.eq_def]
      simp only [if_neg hc, hrest, List.map_cons]

theorem expand_lit (caps : Caps) :
    ∀ l : List Char, expand caps (l.map TItem.lit) = .ok l := by
  intro l
  induction l with
  | nil => rfl
  | cons c rest ih => simp only [List.map_cons, expand, ih]

theorem scan_lit_ok (r : Regex) (l0 : List Char) :
    ∀ fuel l, ∃ out, scan r (l0.map TItem.lit) fuel l = .ok out := by
  intro fuel
  induction fuel with
  | zero => intro l; exact ⟨l, rfl⟩
  | succ fuel ih =>
      intro l
      cases hm : mfirst r l with
      | none =>
          cases l with
          | nil => exact ⟨[], by simp [scan, hm]⟩
          | cons c t =>
              obtain ⟨out, hout⟩ := ih t
              exact ⟨c :: out, by simp [scan, hm, hout]⟩
      | some p =>
          obtain ⟨len, caps⟩ := p
          cases len with
          | zero =>
              cases l with
              | nil => exact ⟨l0, by simp [scan, hm, expand_lit]⟩
              | cons c t =>
                  obtain ⟨out, hout⟩ := ih t
                  exact ⟨l0 ++ c :: out, by simp [scan, hm, expand_lit, hout]⟩
          | succ len' =>
              obtain ⟨out, hout⟩ := ih (l.drop (len' + 1))
              exact ⟨l0 ++ out, by simp [scan, hm, expand_lit, hout]⟩

theorem substL_ok (r : Regex) (ngroups : Nat) (repl l : List Char)
    (h : repl.all (fun c => c ≠ '\\') = true) :
    ∃ out, substL r ngroups repl l = .ok out := by
  unfold substL
  rw [parseTemplate_lit ngroups repl h]
  exact scan_lit_ok r repl (l.length + 1) l

theorem getRepl_bsfree (fk : FakerGen) (k : Nat) (ty : String)
    (hbs : ∀ k v, fk k = .ok v → bslashFree v = true) :
    bslashFree (get_replacement fk k ty).1 = true := by
  unfold get_replacement
  split
  · match hk : fk k with
    | .ok v => exact hbs k v hk
    | .error _ => rfl
  · split
    · match hk : fk k with
      | .ok v => exact hbs k v hk
      | .error _ => rfl
    · split
      · match hk : fk k with
        | .ok v => exact hbs k v hk
        | .error _ => rfl
      · rfl

theorem getRepl_known (fk : FakerGen) (k : Nat) (ty : String)
    (h : knownCat ty = true) :
    (get_replacement fk k ty).2 = k + 1 := by
  unfold knownCat at h
  unfold get_replacement
  simp only [Bool.or_eq_true, decide_eq_true_eq] at h
  rcases h with h | h | h
  · rw [if_pos h]
    cases fk k <;> rfl
  · by_cases h1 : ty = "name"
    · rw [if_pos h1]; cases fk k <;> rfl
    · rw [if_neg h1, if_pos h]; cases fk k <;> rfl
  · by_cases h1 : ty = "name"
    · rw [if_pos h1]; cases fk k <;> rfl
    · by_cases h2 : ty = "address"
      · rw [if_neg h1, if_pos h2]; cases fk k <;> rfl
      · rw [if_neg h1, if_neg h2, if_pos h]; cases fk k <;> rfl

theorem getRepl_unknown (fk : FakerGen) (k : Nat) (ty : String)
    (h : knownCat ty = false) :
    get_replacement fk k ty = ("", k) := by
  unfold knownCat at h
  simp only [Bool.or_eq_false_iff, decide_eq_false_iff_not] at h
  push_neg at h
  unfold get_replacement
  rw [if_neg h.1, if_neg h.2.1, if_neg h.2.2]

theorem getRepl_fail (fk : FakerGen) (k : Nat) (ty : String)
    (h : knownCat ty = true) (hk : fk k = .error ()) :
    get_replacement fk k ty = ("[REDACTED]", k + 1) := by
  unfold knownCat at h
  unfold get_replacement
  simp only [Bool.or_eq_true, decide_eq_true_eq] at h
  rcases h with h | h | h
  · rw [if_pos h, hk]
  · by_cases h1 : ty = "name"
    · rw [if_pos h1, hk]
    · rw [if_neg h1, if_pos h, hk]
  · by_cases h1 : ty = "name"
    · rw [if_pos h1, hk]
    · by_cases h2 : ty = "address"
      · rw [if_neg h1, if_pos h2, hk]
      · rw [if_neg h1, if_neg h2, if_pos h, hk]

theorem countKnown_cons (ty pat : String) (rest : List (String × String)) :
    countKnown ((ty, pat) :: rest) =
      (if knownCat ty then 1 else 0) + countKnown rest := by
  unfold countKnown
  by_cases h : knownCat ty
  · simp [List.filter_cons, h, Nat.add_comm]
  · simp [List.filter_cons, h]

theorem redactGo_append (fk : FakerGen) (ps qs : List (String × String)) :
    ∀ (t : String) (k : Nat),
      redactGo fk (ps ++ qs) t k =
        match redactGo fk ps t k with
        | .error e => .error e
        | .ok p => redactGo fk qs p.1 p.2 := by
  induction ps with
  | nil => intro t k; rfl
  | cons e rest ih =>
      intro t k
      obtain ⟨ty, pat⟩ := e
      simp only [List.cons_append, redactGo]
      cases hc : compile pat with
      | error e1 => rfl
      | ok rg =>
          cases hs : substL rg.1 rg.2 (get_replacement fk k ty).1.data t.data with
          | error e2 => simp [hs]
          | ok t2 =>
              simp only [hs]
              exact ih (String.mk t2) (get_replacement fk k ty).2

theorem redactGo_count (fk : FakerGen) (ps : List (String × String)) :
    ∀ (t out : String) (k k2 : Nat),
      redactGo fk ps t k = .ok (out, k2) → k2 = k + countKnown ps := by
  induction ps with
  | nil =>
      intro t out k k2 h
      simp only [redactGo, Except.ok.injEq, Prod.mk.injEq] at h
      simp [countKnown, ← h.2]
  | cons e rest ih =>
      intro t out k k2 h
      obtain ⟨ty, pat⟩ := e
      simp only [redactGo] at h
      cases hc : compile pat with
      | error e1 => rw [hc] at h; exact absurd h (by simp)
      | ok rg =>
          rw [hc] at h
          cases hs : substL rg.1 rg.2 (get_replacement fk k ty).1.data t.data with
          | error e2 =>
              simp only [hs] at h
              exact absurd h (by simp)
          | ok t2 =>
              simp only [hs] at h
              have hrec := ih (String.mk t2) out (get_replacement fk k ty).2 k2 h
              rw [countKnown_cons]
              by_cases hk : knownCat ty
              · rw [getRepl_known fk k ty hk] at hrec
                rw [hrec, if_pos hk]
                omega
              · rw [getRepl_unknown fk k ty (by simpa using hk)] at hrec
                simp only at hrec
                rw [hrec, if_neg hk]
                omega

theorem redactGo_ok_total (fk : FakerGen) (ps : List (String × String))
    (hcomp : ∀ e ∈ ps, ∃ rg, compile e.2 = .ok rg)
    (hbs : ∀ k v, fk k = .ok v → bslashFree v = true) :
    ∀ (t : String) (k : Nat),
      ∃ out, redactGo fk ps t k = .ok (out, k + countKnown ps) := by
  induction ps with
  | nil => intro t k; exact ⟨t, by simp [redactGo, countKnown]⟩
  | cons e rest ih =>
      intro t k
      obtain ⟨ty, pat⟩ := e
      obtain ⟨rg, hrg⟩ := hcomp (ty, pat) (by simp)
      have hbf : bslashFree (get_replacement fk k ty).1 = true :=
        getRepl_bsfree fk k ty hbs
      obtain ⟨t2, ht2⟩ :=
        substL_ok rg.1 rg.2 (get_replacement fk k ty).1.data t.data
          (by unfold bslashFree at hbf; exact hbf)
      obtain ⟨out, hout⟩ :=
        ih (fun e he => hcomp e (by simp [he])) (String.mk t2)
          (get_replacement fk k ty).2
      refine ⟨out, ?_⟩
      have hstep : redactGo fk ((ty, pat) :: rest) t k =
          redactGo fk rest (String.mk t2) (get_replacement fk k ty).2 := by
        simp only [redactGo, hrg, ht2]
      rw [hstep, hout, countKnown_cons]
      by_cases hk : knownCat ty
      · rw [getRepl_known fk k ty hk, if_pos hk]
        exact congrArg (fun n => Except.ok (out, n)) (by omega)
      · rw [getRepl_unknown fk k ty (by simpa using hk)]
        simp only
        rw [if_neg hk]
        exact congrArg (fun n => Except.ok (out, n)) (by omega)

theorem chunksText_addGap (c : Char) (p : List (List Char × List Char × Caps) × List Char) :
    chunksText (addGap c p).1 (addGap c p).2 = c :: chunksText p.1 p.2 := by
  obtain ⟨cs, tl⟩ := p
  cases cs with
  | nil => rfl
  | cons ch rest =>
      obtain ⟨g, m, caps⟩ := ch
      simp [addGap, chunksText]

theorem renderChunks_addGap (tpl : Template) (c : Char)
    (p : List (List Char × List Char × Caps) × List Char) :
    renderChunks tpl (addGap c p).1 (addGap c p).2 =
      match renderChunks tpl p.1 p.2 with
      | .error e => .error e
      | .ok out => .ok (c :: out) := by
  obtain ⟨cs, tl⟩ := p
  cases cs with
  | nil => rfl
  | cons ch rest =>
      obtain ⟨g, m, caps⟩ := ch
      simp only [addGap, renderChunks]
      cases expand caps tpl with
      | error e => rfl
      | ok rep =>
          cases renderChunks tpl rest tl with
          | error e => rfl
          | ok out => rfl

theorem findChunks_decomp (r : Regex) :
    ∀ (fuel : Nat) (l : List Char),
      chunksText (findChunks r fuel l).1 (findChunks r fuel l).2 = l := by
  intro fuel
  induction fuel with
  | zero => intro l; rfl
  | succ fuel ih =>
      intro l
      cases hm : mfirst r l with
      | none =>
          cases l with
          | nil => simp [findChunks, hm, chunksText]
          | cons c t =>
              simp only [findChunks, hm]
              rw [chunksText_addGap]
              rw [ih t]
      | some p =>
          obtain ⟨len, caps⟩ := p
          cases len with
          | zero =>
              cases l with
              | nil => simp [findChunks, hm, chunksText]
              | cons c t =>
                  simp only [findChunks, hm, chunksText, List.nil_append]
                  rw [chunksText_addGap]
                  rw [ih t]
          | succ len' =>
              simp only [findChunks, hm, chunksText, List.nil_append]
              rw [ih (List.drop (len' + 1) (l))]
              exact List.take_append_drop (len' + 1) l

theorem scan_eq_render (r : Regex) (tpl : Template) :
    ∀ (fuel : Nat) (l : List Char),
      scan r tpl fuel l =
        renderChunks tpl (findChunks r fuel l).1 (findChunks r fuel l).2 := by
  intro fuel
  induction fuel with
  | zero => intro l; rfl
  | succ fuel ih =>
      intro l
      cases hm : mfirst r l with
      | none =>
          cases l with
          | nil => simp [scan, findChunks, hm, renderChunks]
          | cons c t =>
              simp only [scan, findChunks, hm]
              rw [renderChunks_addGap, ← ih t]
      | some p =>
          obtain ⟨len, caps⟩ := p
          cases len with
          | zero =>
              cases l with
              | nil =>
                  simp only [scan, findChunks, hm, renderChunks]
                  cases expand caps tpl with
                  | error e => rfl
                  | ok rep => simp [renderChunks]
              | cons c t =>
                  simp only [scan, findChunks, hm]
                  cases he : expand caps tpl with
                  | error e =>
                      simp only [renderChunks, he]
                  | ok rep =>
                      simp only [renderChunks, he]
                      rw [renderChunks_addGap, ← ih t]
                      cases scan r tpl fuel t with
                      | error e => rfl
                      | ok out => simp
          | succ len' =>
              simp only [scan, findChunks, hm]
              cases he : expand caps tpl with
              | error e => simp only [renderChunks, he]
              | ok rep =>
                  simp only [renderChunks, he, List.nil_append]
                  rw [← ih (List.drop (len' + 1) (l))]

theorem scan_id (r : Regex) (tpl : Template) :
    ∀ (fuel : Nat) (l : List Char), noMatchTails r l = true → scan r tpl fuel l = .ok l := by
  intro fuel
  induction fuel with
  | zero => intro l h; rfl
  | succ fuel ih =>
      intro l h
      cases l with
      | nil =>
          have hm : mfirst r [] = none := by
            have := h
            unfold noMatchTails at this
            simp only [List.tails, List.all_cons, Bool.and_eq_true] at this
            exact Option.isNone_iff_eq_none.mp this.1
          simp [scan, hm]
      | cons c t =>
          unfold noMatchTails at h
          rw [List.tails_cons] at h
          simp only [List.all_cons, Bool.and_eq_true] at h
          have hm : mfirst r (c :: t) = none := Option.isNone_iff_eq_none.mp h.1
          have ht : noMatchTails r t = true := by unfold noMatchTails; exact h.2
          simp [scan, hm, ih t ht]

/-- A generator whose first invocation yields "A" and whose later
invocations yield "B": distinct values for distinct invocations, so reuse
of one generated value is observable. -/
def fkAB : FakerGen := fun k => if k = 0 then .ok "A" else .ok "B"

/-- A generator all of whose invocations raise. -/
def fkFail : FakerGen := fun _ => .error ()

/-- A generator always yielding "A". -/
def fkA : FakerGen := fun _ => .ok "A"

/-- A generator yielding a value that ends with a lone backslash. -/
def fkBS1 : FakerGen := fun _ => .ok "A\\"

/-- A generator yielding a value containing the two-character sequence
backslash backslash. -/
def fkBS2 : FakerGen := fun _ => .ok "a\\\\b"

/-- A configuration source holding, at "patterns.json", a JSON object one
of whose values is a number rather than a string. -/
def fsNum : ConfigSource :=
  fun p => if p = "patterns.json" then some (.ok (.jobj [("a", .jnum 1)])) else none

/-- Claim C1, counterexample.  Category "name" with rule "x" has two
non-overlapping matches in "x x", yet the run yields "A A" with a final
generator counter of 1: the generator (which would have yielded "B" on its
second invocation) is invoked once for the whole pass, and its single
value is reused for both matches — not invoked freshly once per match. -/
theorem c1_counterexample :
    redactGo fkAB [("name", "x")] "x x" 0 = .ok ("A A", 1) ∧
    (findChunks (Regex.chr 'x') ("x x".data.length + 1) "x x".data).1.length = 2 := by
  constructor
  · rfl
  · rfl

/-- Claim C1, amended: in `redact_text`, the synthetic-value generator is
invoked exactly once per pass over a category with a known label (`name`,
`address`, `phone_number`) — not once per match — so the final invocation
counter equals the number of known-label entries, regardless of how many
matches each pass replaces; all matches of a pass share that single
invocation's value. -/
theorem c1_generator_once_per_pass (fk : FakerGen) (pats : List (String × String))
    (text out : String) (k2 : Nat)
    (h : redactGo fk pats text 0 = .ok (out, k2)) :
    k2 = countKnown pats := by
  have := redactGo_count fk pats text out 0 k2 h
  omega

/-- Witness for `c1_generator_once_per_pass` at a concrete run. -/
theorem c1_generator_once_per_pass_witness :
    redactGo fkAB [("name", "z")] "z" 0 = .ok ("A", 1) ∧
    1 = countKnown [("name", "z")] :=
  ⟨by rfl, c1_generator_once_per_pass fkAB [("name", "z")] "z" "A" 1 (by rfl)⟩

/-- Claim C2, counterexample.  With a generator whose single per-pass
invocation raises, BOTH occurrences of the matched category in "x x"
become "[REDACTED]" — not just one failing occurrence, because generation
happens once per pass, not once per match. -/
theorem c2_counterexample :
    redact_text fkFail [("name", "x")] "x x" = .ok "[REDACTED] [REDACTED]" := by
  rfl

/-- Claim C2, amended: a generation failure is contained within the pass
whose single generator invocation raised — that entire pass substitutes
the fixed placeholder "[REDACTED]" for every one of its matches, the
failure is not propagated, the passes before and after run normally, and
the call still returns a valid output string (assuming all rules compile
and successfully generated values contain no backslash, so no unrelated
error occurs). -/
theorem c2_failure_isolated_per_pass (fk : FakerGen) (pre post : List (String × String))
    (ty pat : String) (text : String)
    (hty : knownCat ty = true)
    (hfail : fk (countKnown pre) = .error ())
    (hcomp : ∀ e ∈ pre ++ (ty, pat) :: post, ∃ rg, compile e.2 = .ok rg)
    (hbs : ∀ k v, fk k = .ok v → bslashFree v = true) :
    ∃ (t1 : String) (rg : Regex × Nat) (t2 : List Char) (out : String) (k2 : Nat),
      redactGo fk pre text 0 = .ok (t1, countKnown pre) ∧
      compile pat = .ok rg ∧
      substL rg.1 rg.2 "[REDACTED]".data t1.data = .ok t2 ∧
      redactGo fk post (String.mk t2) (countKnown pre + 1) = .ok (out, k2) ∧
      redact_text fk (pre ++ (ty, pat) :: post) text = .ok out := by
  have hpre : ∀ e ∈ pre, ∃ rg, compile e.2 = .ok rg := by
    intro e he
    exact hcomp e (by simp [he])
  have hpost : ∀ e ∈ post, ∃ rg, compile e.2 = .ok rg := by
    intro e he
    exact hcomp e (by simp [he])
  obtain ⟨t1, ht1⟩ := redactGo_ok_total fk pre hpre hbs text 0
  rw [Nat.zero_add] at ht1
  obtain ⟨rg, hrg⟩ := hcomp (ty, pat) (by simp)
  have hgr : get_replacement fk (countKnown pre) ty = ("[REDACTED]", countKnown pre + 1) :=
    getRepl_fail fk (countKnown pre) ty hty hfail
  obtain ⟨t2, ht2⟩ :=
    substL_ok rg.1 rg.2 "[REDACTED]".data t1.data (by decide)
  obtain ⟨out, hout⟩ :=
    redactGo_ok_total fk post hpost hbs (String.mk t2) (countKnown pre + 1)
  refine ⟨t1, rg, t2, out, countKnown pre + 1 + countKnown post, ht1, hrg, ht2, hout, ?_⟩
  unfold redact_text
  rw [redactGo_append fk pre ((ty, pat) :: post) text 0, ht1]
  have hstep : redactGo fk ((ty, pat) :: post) t1 (countKnown pre) =
      redactGo fk post (String.mk t2) (countKnown pre + 1) := by
    simp only [redactGo, hgr, hrg, ht2]
  simp only [hstep, hout]

/-- Witness for `c2_failure_isolated_per_pass` at a concrete run. -/
theorem c2_failure_isolated_per_pass_witness :
    knownCat "name" = true ∧
    (∃ (t1 : String) (rg : Regex × Nat) (t2 : List Char) (out : String) (k2 : Nat),
      redactGo fkFail [] "y x" 0 = .ok (t1, countKnown []) ∧
      compile "x" = .ok rg ∧
      substL rg.1 rg.2 "[REDACTED]".data t1.data = .ok t2 ∧
      redactGo fkFail [] (String.mk t2) (countKnown [] + 1) = .ok (out, k2) ∧
      redact_text fkFail ([] ++ ("name", "x") :: []) "y x" = .ok out) := by
  constructor
  · decide
  · exact c2_failure_isolated_per_pass fkFail [] [] "name" "x" "y x" (by decide) rfl
      (by
        intro e he
        simp only [List.nil_append, List.mem_singleton] at he
        subst he
        exact ⟨(Regex.chr 'x', 0), rfl⟩)
      (by
        intro k v h
        exact absurd h (by simp [fkFail]))

/-- Claim C3, counterexample.  A source holding a JSON object whose value
is a number (not a string) is ACCEPTED by `load_patterns` and returned
as-is — the claim's requirement that a mapping with non-string values be
rejected with the format error does not hold: only top-level dict-ness is
checked. -/
theorem c3_counterexample :
    load_patterns fsNum "patterns.json" = .ok (JValue.jobj [("a", JValue.jnum 1)]) ∧
    allStringValues (JValue.jobj [("a", JValue.jnum 1)]) = false := by
  exact ⟨rfl, rfl⟩

/-- Claim C3, amended: `load_patterns` raises the not-found error when the
source cannot be located, the parse error when its JSON is malformed, and
the format error exactly when the decoded top-level value is not a dict;
any dict — string values or not — is returned unchanged.  (The spec's
names ConfigNotFoundError / ConfigParseError / ConfigFormatError denote
Python's FileNotFoundError / json.JSONDecodeError / TypeError.) -/
theorem c3_error_classification (fs : ConfigSource) (p : String) :
    (fs p = none → load_patterns fs p = .error .configNotFound) ∧
    (∀ e, fs p = some (.error e) → load_patterns fs p = .error .configParse) ∧
    (∀ fields, fs p = some (.ok (.jobj fields)) → load_patterns fs p = .ok (.jobj fields)) ∧
    (∀ v, fs p = some (.ok v) → (∀ fields, v ≠ .jobj fields) →
      load_patterns fs p = .error .configFormat) := by
  refine ⟨?_, ?_, ?_, ?_⟩
  · intro h
    unfold load_patterns
    rw [h]
  · intro e h
    unfold load_patterns
    rw [h]
  · intro fields h
    unfold load_patterns
    rw [h]
  · intro v h hv
    unfold load_patterns
    rw [h]
    cases v with
    | jobj fields => exact absurd rfl (hv fields)
    | jnull => rfl
    | jbool b => rfl
    | jnum n => rfl
    | jstr s => rfl
    | jarr xs => rfl

/-- Witness for `c3_error_classification` at a concrete missing source. -/
theorem c3_error_classification_witness :
    load_patterns (fun _ => none) "p" = .error .configNotFound :=
  (c3_error_classification (fun _ => none) "p").1 rfl

/-- Claim C4, counterexample.  Supplying an EMPTY Pattern Set does not
replace the defaults: `patterns or self._default_patterns()` treats the
falsy empty dict like `None`, so the engine falls back to the built-in
default set. -/
theorem c4_counterexample :
    initPatterns (some []) = default_patterns ∧ default_patterns ≠ [] := by
  refine ⟨rfl, by decide⟩

/-- Claim C4, amended: a supplied NON-EMPTY Pattern Set entirely replaces
(never merges with) the default set; the defaults are used when no set is
supplied — and also when the supplied set is empty, because the constructor
tests Python truthiness rather than `is None`. -/
theorem c4_nonempty_replaces_defaults (ps : List (String × String)) (h : ps ≠ []) :
    initPatterns (some ps) = ps ∧
    initPatterns none = default_patterns ∧
    initPatterns (some []) = default_patterns := by
  refine ⟨?_, rfl, rfl⟩
  simp only [initPatterns]
  rw [if_neg h]

/-- Witness for `c4_nonempty_replaces_defaults` at a concrete set. -/
theorem c4_nonempty_replaces_defaults_witness :
    initPatterns (some [("a", "b")]) = [("a", "b")] ∧
    initPatterns none = default_patterns ∧
    initPatterns (some []) = default_patterns :=
  c4_nonempty_replaces_defaults [("a", "b")] (by simp)

/-- Claim C5: `redact_text` is a sequence of full per-category passes in
the order the categories appear in the Pattern Set (dict insertion order):
splitting the set anywhere, the passes of the suffix run on exactly the
text produced by the passes of the prefix (with the generator counter
carried over), so pass N sees the text as modified by passes 1..N-1 and no
earlier pass is ever re-applied. -/
theorem c5_sequential_passes (fk : FakerGen) (ps qs : List (String × String))
    (text : String) (k : Nat) :
    redactGo fk (ps ++ qs) text k =
      match redactGo fk ps text k with
      | .error e => .error e
      | .ok p => redactGo fk qs p.1 p.2 :=
  redactGo_append fk ps qs text k

/-- If some entry's rule fails to compile, the redaction reaches the first
such entry (earlier passes succeed given benign generated values) and
aborts with its compile error. -/
theorem redactGo_compile_error (fk : FakerGen)
    (hbs : ∀ k v, fk k = .ok v → bslashFree v = true) :
    ∀ (pats : List (String × String)) (text : String) (k : Nat),
      (∃ e ∈ pats, ∃ ce, compile e.2 = .error ce) →
      ∃ ce, redactGo fk pats text k = .error (.pcompile ce) := by
  intro pats
  induction pats with
  | nil =>
      intro text k h
      obtain ⟨e, he, _⟩ := h
      exact absurd he (by simp)
  | cons e rest ih =>
      intro text k h
      obtain ⟨ty, pat⟩ := e
      cases hc : compile pat with
      | error ce => exact ⟨ce, by simp [redactGo, hc]⟩
      | ok rg =>
          have hbf := getRepl_bsfree fk k ty hbs
          obtain ⟨t2, ht2⟩ :=
            substL_ok rg.1 rg.2 (get_replacement fk k ty).1.data text.data
              (by unfold bslashFree at hbf; exact hbf)
          have hrest : ∃ e ∈ rest, ∃ ce, compile e.2 = .error ce := by
            obtain ⟨e2, he2, ce, hce⟩ := h
            rcases List.mem_cons.mp he2 with heq | hmem
            · subst heq
              rw [hc] at hce
              exact absurd hce (by simp)
            · exact ⟨e2, hmem, ce, hce⟩
          obtain ⟨ce, hce⟩ := ih (String.mk t2) (get_replacement fk k ty).2 hrest
          refine ⟨ce, ?_⟩
          simp only [redactGo, hc, ht2]
          exact hce

/-- Claim C6: if any rule of the Pattern Set is syntactically invalid when
`redact_text` uses it, the call fails with a propagated pattern-compile
error and no (partially) redacted string is returned.  (The side condition
that successfully generated values are backslash-free rules out the
unrelated replacement-template error pre-empting the compile error in an
earlier pass.) -/
theorem c6_invalid_pattern_aborts (fk : FakerGen) (pats : List (String × String))
    (text : String)
    (hbad : ∃ e ∈ pats, ∃ ce, compile e.2 = .error ce)
    (hbs : ∀ k v, fk k = .ok v → bslashFree v = true) :
    ∃ ce, redact_text fk pats text = .error (RedactErr.pcompile ce) := by
  obtain ⟨ce, hce⟩ := redactGo_compile_error fk hbs pats text 0 hbad
  refine ⟨ce, ?_⟩
  unfold redact_text
  rw [hce]

/-- Witness for `c6_invalid_pattern_aborts` at a concrete invalid rule. -/
theorem c6_invalid_pattern_aborts_witness :
    ∃ ce, redact_text fkA [("name", "(")] "w" = .error (RedactErr.pcompile ce) :=
  c6_invalid_pattern_aborts fkA [("name", "(")] "w"
    ⟨("name", "("), by simp, CErr.missingParen, rfl⟩
    (by
      intro k v h
      have hv : v = "A" := by
        have : Except.ok (ε := Unit) "A" = .ok v := h
        exact (Except.ok.injEq _ _ ▸ congrArg id this) ▸ rfl
      subst hv
      decide)

/-- Claim C7: for a category label other than name / address /
phone_number, the dispatch returns the empty string without consulting the
generator: the pass substitutes "" for each match (never "[REDACTED]"),
the generator counter is unchanged, and the dispatch itself introduces no
error. -/
theorem c7_unknown_label_empty (fk : FakerGen) (ty pat : String)
    (rest : List (String × String)) (text : String) (k : Nat)
    (h : knownCat ty = false) :
    redactGo fk ((ty, pat) :: rest) text k =
      match compile pat with
      | .error e => .error (.pcompile e)
      | .ok rg =>
          match substL rg.1 rg.2 "".data text.data with
          | .error e => .error (.template e)
          | .ok t2 => redactGo fk rest (String.mk t2) k := by
  simp only [redactGo, getRepl_unknown fk k ty h]

/-- Witness for `c7_unknown_label_empty` at a concrete run: the match "b"
in "abc" is deleted (replaced with the empty string). -/
theorem c7_unknown_label_empty_witness :
    knownCat "email" = false ∧
    redactGo fkA [("email", "b")] "abc" 0 = .ok ("ac", 0) := by
  refine ⟨by decide, ?_⟩
  rw [c7_unknown_label_empty fkA "email" "b" [] "abc" 0 (by decide)]
  rfl

/-- Claim C8: when no substring of the input matches any rule of the
Pattern Set (and the rules compile; generated values are backslash-free so
no replacement-template error intervenes), `redact_text` returns the input
unchanged. -/
theorem c8_identity_when_no_match (fk : FakerGen) (pats : List (String × String))
    (text : String)
    (h : ∀ e ∈ pats, ∃ rg, compile e.2 = .ok rg ∧ noMatchTails rg.1 text.data = true)
    (hbs : ∀ k v, fk k = .ok v → bslashFree v = true) :
    redact_text fk pats text = .ok text := by
  have aux : ∀ (ps : List (String × String)),
      (∀ e ∈ ps, ∃ rg, compile e.2 = .ok rg ∧ noMatchTails rg.1 text.data = true) →
      ∀ k, ∃ k2, redactGo fk ps text k = .ok (text, k2) := by
    intro ps
    induction ps with
    | nil => intro hps k; exact ⟨k, rfl⟩
    | cons e rest ih =>
        intro hps k
        obtain ⟨ty, pat⟩ := e
        obtain ⟨rg, hrg, hnm⟩ := hps (ty, pat) (by simp)
        have hbf := getRepl_bsfree fk k ty hbs
        have hsub : substL rg.1 rg.2 (get_replacement fk k ty).1.data text.data =
            .ok text.data := by
          unfold substL
          rw [parseTemplate_lit rg.2 _ (by unfold bslashFree at hbf; exact hbf)]
          exact scan_id rg.1 _ _ text.data hnm
        obtain ⟨k2, hk2⟩ := ih (fun e he => hps e (by simp [he])) (get_replacement fk k ty).2
        refine ⟨k2, ?_⟩
        simp only [redactGo, hrg, hsub, String.mk_data]
        exact hk2
  obtain ⟨k2, hk2⟩ := aux pats h 0
  unfold redact_text
  rw [hk2]

/-- Witness for `c8_identity_when_no_match` at a concrete run: "ab"
contains no "q". -/
theorem c8_identity_when_no_match_witness :
    redact_text fkA [("name", "q")] "ab" = .ok "ab" :=
  c8_identity_when_no_match fkA [("name", "q")] "ab"
    (by
      intro e he
      simp only [List.mem_singleton] at he
      subst he
      exact ⟨(Regex.chr 'q', 0), rfl, by decide⟩)
    (by
      intro k v h
      have hv : Except.ok (ε := Unit) "A" = .ok v := h
      cases hv
      decide)

/-- Claim C9: one category pass (`substL`, i.e. one `re.sub`) decomposes
the pre-pass text into non-overlapping matched spans and the text between
and around them (`findChunks` / `chunksText`, first conjunct: gaps ++
matches reassemble the input exactly), and the pass output replaces every
matched span with the expanded replacement while keeping all content
outside the matched spans — the gaps and the tail — verbatim, unchanged in
content and length (second conjunct: the pass equals `renderChunks` of
that decomposition). -/
theorem c9_pass_replaces_all_matches (r : Regex) (ngroups : Nat) (repl l : List Char)
    (tpl : Template) (h : parseTemplate ngroups repl = .ok tpl) :
    chunksText (findChunks r (l.length + 1) l).1 (findChunks r (l.length + 1) l).2 = l ∧
    substL r ngroups repl l =
      renderChunks tpl (findChunks r (l.length + 1) l).1 (findChunks r (l.length + 1) l).2 := by
  refine ⟨findChunks_decomp r (l.length + 1) l, ?_⟩
  unfold substL
  rw [h]
  exact scan_eq_render r tpl (l.length + 1) l

/-- Witness for `c9_pass_replaces_all_matches` at a concrete pass. -/
theorem c9_pass_replaces_all_matches_witness :
    parseTemplate 0 "R".data = .ok [TItem.lit 'R'] ∧
    (chunksText (findChunks (Regex.chr 'x') ("xax".data.length + 1) "xax".data).1
        (findChunks (Regex.chr 'x') ("xax".data.length + 1) "xax".data).2 = "xax".data ∧
      substL (Regex.chr 'x') 0 "R".data "xax".data =
        renderChunks [TItem.lit 'R']
          (findChunks (Regex.chr 'x') ("xax".data.length + 1) "xax".data).1
          (findChunks (Regex.chr 'x') ("xax".data.length + 1) "xax".data).2) :=
  ⟨rfl, c9_pass_replaces_all_matches (Regex.chr 'x') 0 "R".data "xax".data [TItem.lit 'R'] rfl⟩

/-- Claim C10: the generator's value is used as a `re.sub` replacement
TEMPLATE, not literal text.  A generated value ending in a lone backslash
makes the redact call raise a template "bad escape" error instead of
inserting the value; a generated value containing the two-character
sequence backslash-backslash is inserted as a single backslash, differing
from the generator's output. -/
theorem c10_replacement_is_template :
    redact_text fkBS1 [("name", "x")] "x" = .error (RedactErr.template TErr.badEscape) ∧
    redact_text fkBS2 [("name", "x")] "x" = .ok "a\\b" ∧
    "a\\b" ≠ "a\\\\b" := by
  refine ⟨rfl, rfl, by decide⟩
